import Mathlib

/-
Verification development for the repository's two pieces of original logic:

* the naive keyword-relevance memory store (`SimpleMemory` in
  `src/examples/04_agent_memory.py`), and
* the multi-agent pipeline's best-effort JSON extraction step
  (`AgentOrchestrator.create_travel_plan` in `src/examples/05_orchestration.py`),

plus the reminder-deletion helper of the chat agent
(`PersonalAssistant.delete_reminder` in `src/examples/06_chat_agent.py`).

Python strings are modelled as Lean `String` where only containment and
lowercasing matter, and as `List Char` (sequences of code points, matching
Python's character-indexed strings) where index arithmetic matters.
Python `int` is modelled as `Int`.  Dictionaries are modelled as association
lists in insertion order (CPython dicts preserve insertion order).
-/

set_option maxHeartbeats 1000000

/-! ## Character and list utilities shared by the components -/

/-- Opening curly brace character (code point 123). -/
def lbrace : Char := Char.ofNat 123

/-- Closing curly brace character (code point 125). -/
def rbrace : Char := Char.ofNat 125

/-- Test whether `pat` starts the list `l` (helper for substring containment). -/
def charsLead : List Char → List Char → Bool
  | [], _ => true
  | _ :: _, [] => false
  | a :: as, b :: bs => a == b && charsLead as bs

/-- Python's `pat in text` on strings: `pat` occurs as a contiguous substring.
The empty pattern occurs in every string, as in Python. -/
def charsHaveSub (pat : List Char) : List Char → Bool
  | [] => charsLead pat []
  | b :: bs => charsLead pat (b :: bs) || charsHaveSub pat bs

/-- Python `str.lower()`, character by character (ASCII case mapping; the
concrete texts in the repository are ASCII or Chinese, where this agrees with
Python). -/
def pyLower (s : String) : List Char := s.toList.map Char.toLower

/-- Helper for `pySplitWs`: split on whitespace runs, accumulating the current
word reversed. -/
def splitWsAux : List Char → List Char → List (List Char)
  | [], acc => if acc.isEmpty then [] else [acc.reverse]
  | c :: r, acc =>
      if c.isWhitespace then
        if acc.isEmpty then splitWsAux r [] else acc.reverse :: splitWsAux r []
      else splitWsAux r (c :: acc)

/-- Python `str.split()` with no arguments: split on runs of whitespace and
drop empty pieces. -/
def pySplitWs (s : List Char) : List (List Char) := splitWsAux s []

/-- Python slicing `l[:limit]` for an arbitrary integer `limit`: a nonnegative
limit keeps the first `limit` elements; a negative limit drops the final
`|limit|` elements (natural subtraction clamps at zero, as Python does). -/
def pySliceList (limit : Int) (l : List α) : List α :=
  if 0 ≤ limit then l.take limit.toNat
  else l.take (l.length - (-limit).toNat)

/-! ## KeywordMemoryStore: `SimpleMemory` from `04_agent_memory.py`

The store `self.collections` is a dict from collection name to a list of
record dicts `{"category": ..., "text": ...}`; it is modelled as an
association list in insertion order. -/

/-- The record dict `{"category": category, "text": text}` stored by
`save_information`. -/
structure MemoryRecord where
  category : String
  text : String
  deriving DecidableEq, Repr

/-- The `self.collections` dictionary. -/
abbrev Store := List (String × List MemoryRecord)

/-- Dictionary lookup `self.collections[name]`, `none` when the key is absent
(`name not in self.collections`). -/
def lookupColl : Store → String → Option (List MemoryRecord)
  | [], _ => none
  | (n, rs) :: s, name => if n = name then some rs else lookupColl s name

/-- Python `collection in self.collections`. -/
def hasColl (s : Store) (name : String) : Bool := (lookupColl s name).isSome

/-- Method `create_collection`: insert an empty collection unless the name is
already present. -/
def create_collection (s : Store) (collection_name : String) : Store :=
  if hasColl s collection_name then s else s ++ [(collection_name, [])]

/-- In-place `self.collections[name].append(r)`: rebuild the store with the
record appended to the named collection (dict keys are unique, so only the
first match can exist). -/
def appendRecord : Store → String → MemoryRecord → Store
  | [], _, _ => []
  | (n, rs) :: s, name, r =>
      if n = name then (n, rs ++ [r]) :: s else (n, rs) :: appendRecord s name r

/-- Method `save_information`: auto-create the collection when absent, then
append the record dict. -/
def save_information (s : Store) (collection category text : String) : Store :=
  let s1 := if hasColl s collection then s else create_collection s collection
  appendRecord s1 collection { category := category, text := text }

/-- The keyword list `query.lower().split()` computed by `search`. -/
def keywordsOf (query : String) : List (List Char) := pySplitWs (pyLower query)

/-- The relevance score of one record: one point per keyword occurring as a
substring of the lowercased record text (the `for keyword in keywords` loop). -/
def recordScore (keywords : List (List Char)) (item : MemoryRecord) : Nat :=
  keywords.countP (fun k => charsHaveSub k (pyLower item.text))

/-- The `scored_items` list right before sorting: every record paired with its
score, keeping only strictly positive scores, in collection (insertion)
order. -/
def matchedScored (items : List MemoryRecord) (keywords : List (List Char)) :
    List (MemoryRecord × Nat) :=
  (items.map (fun it => (it, recordScore keywords it))).filter (fun p => decide (0 < p.2))

/-- Stable insertion of a scored record into a list sorted by score descending:
the new element goes before the first element whose score does not exceed it,
hence after every strictly greater score and before every equal one. -/
def insDesc (x : MemoryRecord × Nat) : List (MemoryRecord × Nat) → List (MemoryRecord × Nat)
  | [] => [x]
  | y :: ys => if y.2 ≤ x.2 then x :: y :: ys else y :: insDesc x ys

/-- Stable sort by score descending, modelling
`scored_items.sort(key=lambda x: x[1], reverse=True)` (CPython's sort is
stable, and a stable sort by one key is uniquely determined, so insertion
sort computes the same list). -/
def sortScoredDesc : List (MemoryRecord × Nat) → List (MemoryRecord × Nat)
  | [] => []
  | x :: xs => insDesc x (sortScoredDesc xs)

/-- Method `search`: missing collection gives `[]`; otherwise score, filter,
stable-sort descending, slice to `limit`, and drop the scores. -/
def search (s : Store) (collection query : String) (limit : Int) : List MemoryRecord :=
  match lookupColl s collection with
  | none => []
  | some items =>
      (pySliceList limit (sortScoredDesc (matchedScored items (keywordsOf query)))).map Prod.fst

/-- State-passing rendering of the `search` method: the method only reads
`self.collections` (the local `scored_items` list is sorted in place, but it
is a fresh list of pairs), so the resulting store is the input store. -/
def search_state (s : Store) (collection query : String) (limit : Int) :
    List MemoryRecord × Store :=
  (search s collection query limit, s)

/-! ## JSON values and a model of `json.loads`

Python's `json.loads` is the only external call inside the EXTRACT step's
`try` block.  JSON values are modelled by `Json`; objects keep their members
as a list in textual order (possibly with duplicate keys; `dict.get` then
sees the last occurrence, as CPython does).  Numeric literals are modelled as
integers (the claims under verification exercise no fractional numbers). -/

inductive Json where
  | str : List Char → Json
  | num : Int → Json
  | bool : Bool → Json
  | null : Json
  | arr : List Json → Json
  | obj : List (List Char × Json) → Json

/-- Skip JSON whitespace (space, tab, newline, carriage return). -/
def skipWs : List Char → List Char
  | [] => []
  | c :: r => if c.isWhitespace then skipWs r else c :: r

/-- Decode one character escape after a backslash.  The short escapes of the
JSON grammar are supported; `\uXXXX` escapes are not modelled (no claim
exercises them). -/
def unescapeChar (c : Char) : Option Char :=
  if c = '"' then some '"'
  else if c = '\\' then some '\\'
  else if c = '/' then some '/'
  else if c = 'n' then some '\n'
  else if c = 't' then some '\t'
  else if c = 'r' then some '\r'
  else if c = 'b' then some (Char.ofNat 8)
  else if c = 'f' then some (Char.ofNat 12)
  else none

/-- Helper for `parseStrBody`: when the flag is set, the previous character
was a backslash and the next character is an escape code. -/
def parseStrBodyAux : Bool → List Char → Option (List Char × List Char)
  | _, [] => none
  | true, e :: r =>
      match unescapeChar e with
      | none => none
      | some u =>
          match parseStrBodyAux false r with
          | none => none
          | some (s, r2) => some (u :: s, r2)
  | false, c :: r =>
      if c = '"' then some ([], r)
      else if c = '\\' then parseStrBodyAux true r
      else
        match parseStrBodyAux false r with
        | none => none
        | some (s, r2) => some (c :: s, r2)

/-- Parse the body of a JSON string literal (the opening quote already
consumed), returning the decoded characters and the remaining input. -/
def parseStrBody (s : List Char) : Option (List Char × List Char) := parseStrBodyAux false s

/-- Consume a run of decimal digits, accumulating their value. -/
def takeDigits (acc : Nat) : List Char → Nat × List Char
  | [] => (acc, [])
  | c :: r => if c.isDigit then takeDigits (acc * 10 + (c.toNat - 48)) r else (acc, c :: r)

/-- Parse an integer JSON number (optional minus sign followed by digits). -/
def parseNumber : List Char → Option (Json × List Char)
  | [] => none
  | '-' :: c :: r =>
      if c.isDigit then
        let p := takeDigits (c.toNat - 48) r
        some (Json.num (-(p.1 : Int)), p.2)
      else none
  | c :: r =>
      if c.isDigit then
        let p := takeDigits (c.toNat - 48) r
        some (Json.num (p.1 : Int), p.2)
      else none

mutual

/-- Recursive-descent JSON value parser.  The fuel argument decreases on every
nested call; since every unit of fuel spent consumes at least one input
character, fuel `length + 1` (as used by `jsonLoads`) never runs out on
well-formed input. -/
def parseValue : Nat → List Char → Option (Json × List Char)
  | 0, _ => none
  | Nat.succ f, s =>
      match s with
      | [] => none
      | c :: r =>
          if c = '"' then
            match parseStrBody r with
            | some (cs, r2) => some (Json.str cs, r2)
            | none => none
          else if c = lbrace then
            match skipWs r with
            | [] => none
            | c2 :: r2 =>
                if c2 = rbrace then some (Json.obj [], r2)
                else
                  match parseMember f (c2 :: r2) with
                  | some (m, r3) =>
                      match parseMembers f r3 with
                      | some (ms, r4) => some (Json.obj (m :: ms), r4)
                      | none => none
                  | none => none
          else if c = '[' then
            match skipWs r with
            | [] => none
            | c2 :: r2 =>
                if c2 = ']' then some (Json.arr [], r2)
                else
                  match parseValue f (c2 :: r2) with
                  | some (v, r3) =>
                      match parseElems f r3 with
                      | some (vs, r4) => some (Json.arr (v :: vs), r4)
                      | none => none
                  | none => none
          else if c = 't' then
            match r with
            | 'r' :: 'u' :: 'e' :: r2 => some (Json.bool true, r2)
            | _ => none
          else if c = 'f' then
            match r with
            | 'a' :: 'l' :: 's' :: 'e' :: r2 => some (Json.bool false, r2)
            | _ => none
          else if c = 'n' then
            match r with
            | 'u' :: 'l' :: 'l' :: r2 => some (Json.null, r2)
            | _ => none
          else parseNumber (c :: r)

/-- Parse one `"key": value` object member (leading whitespace already
skipped). -/
def parseMember : Nat → List Char → Option ((List Char × Json) × List Char)
  | 0, _ => none
  | Nat.succ f, s =>
      match s with
      | [] => none
      | c :: r =>
          if c = '"' then
            match parseStrBody r with
            | some (k, r2) =>
                match skipWs r2 with
                | ':' :: r3 =>
                    match parseValue f (skipWs r3) with
                    | some (v, r4) => some ((k, v), r4)
                    | none => none
                | _ => none
            | none => none
          else none

/-- Parse the continuation of an object after a member: either a closing brace
or a comma followed by further members. -/
def parseMembers : Nat → List Char → Option (List (List Char × Json) × List Char)
  | 0, _ => none
  | Nat.succ f, s =>
      match skipWs s with
      | [] => none
      | c :: r =>
          if c = rbrace then some ([], r)
          else if c = ',' then
            match parseMember f (skipWs r) with
            | some (m, r2) =>
                match parseMembers f r2 with
                | some (ms, r3) => some (m :: ms, r3)
                | none => none
            | none => none
          else none

/-- Parse the continuation of an array after an element: either a closing
bracket or a comma followed by further elements. -/
def parseElems : Nat → List Char → Option (List Json × List Char)
  | 0, _ => none
  | Nat.succ f, s =>
      match skipWs s with
      | [] => none
      | c :: r =>
          if c = ']' then some ([], r)
          else if c = ',' then
            match parseValue f (skipWs r) with
            | some (v, r2) =>
                match parseElems f r2 with
                | some (vs, r3) => some (v :: vs, r3)
                | none => none
            | none => none
          else none

end

/-- Model of `json.loads`: parse one JSON value surrounded by optional
whitespace; fail when anything but whitespace follows. -/
def jsonLoads (s : List Char) : Option Json :=
  match parseValue (s.length + 1) (skipWs s) with
  | some (v, rest) => if (skipWs rest).isEmpty then some v else none
  | none => none

/-! ## A JSON renderer used to quantify over texts containing a JSON object -/

/-- Escape the body of a string literal: quote and backslash get a backslash
escape, every other character is emitted verbatim (the parser above accepts
raw characters in string bodies). -/
def renderStrBody : List Char → List Char
  | [] => []
  | c :: r =>
      (if c = '"' then ['\\', '"'] else if c = '\\' then ['\\', '\\'] else [c])
        ++ renderStrBody r

/-- Render a JSON string literal. -/
def renderStr (s : List Char) : List Char := '"' :: (renderStrBody s ++ ['"'])

mutual

/-- Render a JSON value as text (no optional whitespace). -/
def render : Json → List Char
  | Json.str s => renderStr s
  | Json.num n => (toString n).toList
  | Json.bool true => 't' :: 'r' :: 'u' :: 'e' :: []
  | Json.bool false => 'f' :: 'a' :: 'l' :: 's' :: 'e' :: []
  | Json.null => 'n' :: 'u' :: 'l' :: 'l' :: []
  | Json.arr [] => '[' :: ']' :: []
  | Json.arr (v :: vs) => '[' :: (render v ++ renderElems vs)
  | Json.obj [] => lbrace :: rbrace :: []
  | Json.obj (m :: ms) => lbrace :: (renderMember m ++ renderMembersRest ms)

/-- Render one object member `"key": value` (no whitespace). -/
def renderMember : List Char × Json → List Char
  | (k, v) => renderStr k ++ (':' :: render v)

/-- Render the tail of an array after its first element. -/
def renderElems : List Json → List Char
  | [] => [']']
  | v :: vs => ',' :: (render v ++ renderElems vs)

/-- Render the tail of an object after its first member. -/
def renderMembersRest : List (List Char × Json) → List Char
  | [] => [rbrace]
  | m :: ms => ',' :: (renderMember m ++ renderMembersRest ms)

end

/-! ## SequentialAgentPipeline EXTRACT step from `05_orchestration.py`

The three generation stages are calls to the external text-generation
service; the repository-original logic is what happens to the accumulated
final-stage output `optimization_response`.  The `TravelPlan` dataclass
declares field types, but Python does not enforce annotations at runtime:
whatever value `plan_data.get(...)` returns is stored unchanged.  Fields are
therefore modelled as JSON values; a Python string appears as `Json.str` and
a list of strings as `Json.arr` of `Json.str`. -/

structure TravelPlan where
  destination : Json
  start_date : Json
  end_date : Json
  activities : Json
  accommodation : Json
  transportation : Json
  budget_estimate : Json
  notes : Json

/-- Python `dict.get(key, default)` over members listed in textual order:
later duplicate keys overwrite earlier ones, so the carried default is
replaced by each binding found and the last one wins. -/
def pyGet : List (List Char × Json) → List Char → Json → Json
  | [], _, dflt => dflt
  | (k, v) :: rest, key, dflt => if k = key then pyGet rest key v else pyGet rest key dflt

def keyDestination : List Char := "destination".toList

def keyStartDate : List Char := "start_date".toList

def keyEndDate : List Char := "end_date".toList

def keyActivities : List Char := "activities".toList

def keyAccommodation : List Char := "accommodation".toList

def keyTransportation : List Char := "transportation".toList

def keyBudgetEstimate : List Char := "budget_estimate".toList

def keyNotes : List Char := "notes".toList

/-- The `TravelPlan(...)` constructor call on the successful parse path:
each field from `plan_data.get(key, default)`.  The default for
`destination` is the `destination` argument of `create_travel_plan`; every
other default is an empty value. -/
def planFromFields (destination : List Char) (fields : List (List Char × Json)) : TravelPlan :=
  { destination := pyGet fields keyDestination (Json.str destination)
  , start_date := pyGet fields keyStartDate (Json.str [])
  , end_date := pyGet fields keyEndDate (Json.str [])
  , activities := pyGet fields keyActivities (Json.arr [])
  , accommodation := pyGet fields keyAccommodation (Json.str [])
  , transportation := pyGet fields keyTransportation (Json.str [])
  , budget_estimate := pyGet fields keyBudgetEstimate (Json.str [])
  , notes := pyGet fields keyNotes (Json.str []) }

/-- Python `str.strip()`: drop leading and trailing whitespace. -/
def pyStrip (s : List Char) : List Char :=
  ((s.dropWhile Char.isWhitespace).reverse.dropWhile Char.isWhitespace).reverse

/-- Python `str.split(sep)` for a one-character separator: split at every
occurrence, keeping empty pieces (so the result always has one more piece
than there are separators). -/
def pySplitChar (c : Char) : List Char → List (List Char)
  | [] => [[]]
  | a :: r =>
      if a = c then [] :: pySplitChar c r
      else
        match pySplitChar c r with
        | [] => [[a]]
        | w :: ws => (a :: w) :: ws

/-- The placeholder string `"請參閱詳細響應"` used by the fallback plan. -/
def placeholderText : List Char := "請參閱詳細響應".toList

/-- The `TravelPlan(...)` constructed when no valid JSON region is found or
parsing raises: destination and dates from the inputs, placeholder
descriptive fields, and the entire final-stage output in `notes`.  The same
expression appears verbatim in the `else` branch and in the `except` handler
of the source; it is shared here.  The index `[1]` of the date split is
guarded by the containment test, so the total `getD` never uses its
default. -/
def fallbackPlan (destination dates optimizeText : List Char) : TravelPlan :=
  { destination := Json.str destination
  , start_date :=
      Json.str (if '至' ∈ dates then pyStrip ((pySplitChar '至' dates).getD 0 []) else dates)
  , end_date :=
      Json.str (if '至' ∈ dates then pyStrip ((pySplitChar '至' dates).getD 1 []) else [])
  , activities := Json.arr [Json.str placeholderText]
  , accommodation := Json.str placeholderText
  , transportation := Json.str placeholderText
  , budget_estimate := Json.str placeholderText
  , notes := Json.str optimizeText }

/-- Helper for `pyFind`: index of the first occurrence of `c`. -/
def pyFindAux (c : Char) : List Char → Option Nat
  | [] => none
  | a :: r => if a = c then some 0 else (pyFindAux c r).map (· + 1)

/-- Python `str.find(c)`: index of the first occurrence, `-1` when absent. -/
def pyFind (c : Char) (s : List Char) : Int :=
  match pyFindAux c s with
  | some n => (n : Int)
  | none => -1

/-- Python `str.rfind(c)`: index of the last occurrence, `-1` when absent. -/
def pyRfind (c : Char) (s : List Char) : Int :=
  match pyFindAux c s.reverse with
  | some n => ((s.length - 1 - n : Nat) : Int)
  | none => -1

/-- The EXTRACT step of `create_travel_plan` (lines 179-223): locate the
first brace and the last closing brace, try `json.loads` on the slice
between them, and build the `TravelPlan`.  A successful parse of a non-object
cannot happen for a slice that starts with a brace, but Python would then
raise `AttributeError` inside the `try` on `plan_data.get`, landing in the
same `except` fallback, which the second `some` branch mirrors.  A parse
error lands in the `except` fallback as well. -/
def extractTravelPlan (destination dates optimizeText : List Char) : TravelPlan :=
  let jsonStart : Int := pyFind lbrace optimizeText
  let jsonEnd : Int := pyRfind rbrace optimizeText + 1
  if 0 ≤ jsonStart ∧ jsonStart < jsonEnd then
    match jsonLoads ((optimizeText.drop jsonStart.toNat).take (jsonEnd - jsonStart).toNat) with
    | some (Json.obj fields) => planFromFields destination fields
    | some _ => fallbackPlan destination dates optimizeText
    | none => fallbackPlan destination dates optimizeText
  else fallbackPlan destination dates optimizeText

/-! ## PersonalAssistant reminders from `06_chat_agent.py` -/

/-- One reminder dict as appended by `set_reminder`. -/
structure Reminder where
  id : String
  task : String
  time : String
  deriving DecidableEq, Repr

/-- Message returned when the id fails to convert to an integer. -/
def invalidIdMsg (idStripped : String) : String :=
  "無效的提醒 ID: " ++ idStripped ++ "。請提供有效的數字 ID。"

/-- Message returned when the integer id is out of range. -/
def notFoundMsg (idStripped : String) : String :=
  "找不到 ID 為 " ++ idStripped ++ " 的提醒。"

/-- Message returned when all reminders are deleted. -/
def deletedAllMsg (count : Nat) : String :=
  "已刪除所有 " ++ toString count ++ " 個提醒。"

/-- Message returned when one reminder is deleted. -/
def deletedMsg (r : Reminder) : String :=
  "已刪除提醒：在 " ++ r.time ++ " 提醒 " ++ r.task

/-- Python `str.strip()` on a `String`. -/
def pyStripStr (s : String) : String := String.mk (pyStrip s.toList)

/-- Python `str.lower()` returning a `String` (character-by-character case
mapping, like `pyLower`). -/
def pyLowerStr (s : String) : String := String.mk (s.toList.map Char.toLower)

/-- Digit-folding model of `int(str)` (after the sign): every remaining
character must be an ASCII digit.  Underscore separators and non-ASCII
digits, which CPython also accepts, are not modelled (no claim exercises
them). -/
def digitsToNatAcc (acc : Nat) : List Char → Option Nat
  | [] => some acc
  | c :: r => if c.isDigit then digitsToNatAcc (acc * 10 + (c.toNat - 48)) r else none

/-- Model of Python `int(s)` for an already-stripped string: optional sign
followed by at least one digit. -/
def pyParseInt (s : String) : Option Int :=
  match s.toList with
  | [] => none
  | '-' :: [] => none
  | '-' :: c :: r => (digitsToNatAcc 0 (c :: r)).map (fun n => -(n : Int))
  | '+' :: [] => none
  | '+' :: c :: r => (digitsToNatAcc 0 (c :: r)).map (fun n => (n : Int))
  | l => (digitsToNatAcc 0 l).map (fun n => (n : Int))

/-- Python `list.pop(i)` for `i < length`: the removed element and the
remaining list (the default of `getD` is unreachable under the caller's
bounds check). -/
def pyPopAt (l : List Reminder) (i : Nat) : Reminder × List Reminder :=
  (l.getD i { id := "", task := "", time := "" }, l.take i ++ l.drop (i + 1))

/-- Method `delete_reminder`: strip the id; `"all"`/`"全部"` (case-insensitive)
clears the list; otherwise convert to an integer (a `ValueError` gives the
invalid-id message) and delete the `1`-based position when it is in range,
else return the not-found message. -/
def delete_reminder (reminders : List Reminder) (id : String) : String × List Reminder :=
  let idToDelete := pyStripStr id
  if pyLowerStr idToDelete = "all" ∨ pyLowerStr idToDelete = "全部" then
    (deletedAllMsg reminders.length, [])
  else
    match pyParseInt idToDelete with
    | some n =>
        if 1 ≤ n ∧ n ≤ (reminders.length : Int) then
          let p := pyPopAt reminders (n - 1).toNat
          (deletedMsg p.1, p.2)
        else (notFoundMsg idToDelete, reminders)
    | none => (invalidIdMsg idToDelete, reminders)

/-! ## Auxiliary definitions used only to state and prove the claims -/

/-- The matched, scored record list of a `search` call before sorting (the
`scored_items` list), lifted to the store level. -/
def matchedOf (s : Store) (collection query : String) : List (MemoryRecord × Nat) :=
  match lookupColl s collection with
  | none => []
  | some items => matchedScored items (keywordsOf query)

/-- A two-record store used for concrete counterexamples: both records match
the one-keyword query `"a"` with score 1. -/
def demoStore : Store :=
  save_information (save_information [] "c" "k1" "a x") "c" "k2" "a y"

/-- The first list is an initial segment of the second. -/
def leadsSeq (a b : List α) : Prop := ∃ t, a ++ t = b

/-- JSON values of the two shapes the round-trip claim quantifies over:
strings and arrays of strings. -/
def IsStrVal (v : Json) : Prop :=
  (∃ s : List Char, v = Json.str s) ∨
    (∃ acts : List (List Char), v = Json.arr (acts.map Json.str))

/-- Parser fuel sufficient for one value of the shapes in `IsStrVal`. -/
def svFuel : Json → Nat
  | Json.arr l => l.length + 2
  | _ => 1

/-- Parser fuel sufficient for an object-member tail. -/
def msFuel : List (List Char × Json) → Nat
  | [] => 1
  | (_, v) :: ms => svFuel v + msFuel ms + 2

/-- The member list of a JSON object supplying all eight recognized keys with
string values, and a string-sequence value for `activities`. -/
def travelPlanFields (vd vs ve : List Char) (acts : List (List Char))
    (vac vtr vbu vno : List Char) : List (List Char × Json) :=
  [ (keyDestination, Json.str vd)
  , (keyStartDate, Json.str vs)
  , (keyEndDate, Json.str ve)
  , (keyActivities, Json.arr (acts.map Json.str))
  , (keyAccommodation, Json.str vac)
  , (keyTransportation, Json.str vtr)
  , (keyBudgetEstimate, Json.str vbu)
  , (keyNotes, Json.str vno) ]

/-! ## Lemmas about the memory store -/

theorem insDesc_length (x : MemoryRecord × Nat) (l : List (MemoryRecord × Nat)) :
    (insDesc x l).length = l.length + 1 := by
  induction l with
  | nil => rfl
  | cons y ys ih => by_cases h : y.2 ≤ x.2 <;> simp [insDesc, h, ih]

theorem sortScoredDesc_length (l : List (MemoryRecord × Nat)) :
    (sortScoredDesc l).length = l.length := by
  induction l with
  | nil => rfl
  | cons x xs ih => simp [sortScoredDesc, insDesc_length, ih]

theorem mem_insDesc {x z : MemoryRecord × Nat} {l : List (MemoryRecord × Nat)} :
    z ∈ insDesc x l ↔ z = x ∨ z ∈ l := by
  induction l with
  | nil => simp [insDesc]
  | cons y ys ih =>
      by_cases h : y.2 ≤ x.2
      · simp [insDesc, h]
      · simp [insDesc, h, ih]
        tauto

theorem pairwise_insDesc {x : MemoryRecord × Nat} {l : List (MemoryRecord × Nat)}
    (hl : List.Pairwise (fun a b => b.2 ≤ a.2) l) :
    List.Pairwise (fun a b => b.2 ≤ a.2) (insDesc x l) := by
  induction l with
  | nil => simp [insDesc]
  | cons y ys ih =>
      rw [List.pairwise_cons] at hl
      by_cases h : y.2 ≤ x.2
      · rw [insDesc]
        simp only [h, if_pos]
        rw [List.pairwise_cons]
        refine ⟨?_, List.Pairwise.cons hl.1 hl.2⟩
        intro z hz
        rcases List.mem_cons.mp hz with hzy | hzys
        · exact hzy ▸ h
        · exact Nat.le_trans (hl.1 z hzys) h
      · rw [insDesc]
        simp only [h, if_neg, not_false_iff]
        rw [List.pairwise_cons]
        refine ⟨?_, ih hl.2⟩
        intro z hz
        rcases mem_insDesc.mp hz with hzx | hzys
        · exact hzx ▸ Nat.le_of_lt (Nat.lt_of_not_le h)
        · exact hl.1 z hzys

theorem pairwise_sortScoredDesc (l : List (MemoryRecord × Nat)) :
    List.Pairwise (fun a b => b.2 ≤ a.2) (sortScoredDesc l) := by
  induction l with
  | nil => simp [sortScoredDesc]
  | cons x xs ih => exact pairwise_insDesc ih

theorem filter_insDesc (x : MemoryRecord × Nat) (l : List (MemoryRecord × Nat)) (sc : Nat) :
    (insDesc x l).filter (fun p => decide (p.2 = sc)) =
      if x.2 = sc then x :: l.filter (fun p => decide (p.2 = sc))
      else l.filter (fun p => decide (p.2 = sc)) := by
  induction l with
  | nil => by_cases h : x.2 = sc <;> simp [insDesc, h]
  | cons y ys ih =>
      rw [insDesc]
      by_cases hle : y.2 ≤ x.2
      · rw [if_pos hle]
        by_cases hx : x.2 = sc <;> by_cases hy : y.2 = sc <;> simp [hx, hy]
      · rw [if_neg hle]
        by_cases hx : x.2 = sc
        · have hy : ¬ y.2 = sc := by omega
          simp [hx, hy, ih]
        · by_cases hy : y.2 = sc <;> simp [hx, hy, ih]

theorem filter_sortScoredDesc (l : List (MemoryRecord × Nat)) (sc : Nat) :
    (sortScoredDesc l).filter (fun p => decide (p.2 = sc)) =
      l.filter (fun p => decide (p.2 = sc)) := by
  induction l with
  | nil => rfl
  | cons x xs ih => by_cases h : x.2 = sc <;> simp [sortScoredDesc, filter_insDesc, h, ih]

theorem pySliceList_eq_take (limit : Int) (l : List α) :
    ∃ k : Nat, pySliceList limit l = l.take k := by
  unfold pySliceList
  by_cases h : 0 ≤ limit
  · exact ⟨limit.toNat, by simp [h]⟩
  · exact ⟨l.length - (-limit).toNat, by simp [h]⟩

theorem filter_take_leadsSeq (p : α → Bool) (l : List α) (k : Nat) :
    leadsSeq ((l.take k).filter p) (l.filter p) := by
  induction l generalizing k with
  | nil => exact ⟨[], by simp⟩
  | cons a as ih =>
      cases k with
      | zero => exact ⟨(a :: as).filter p, by simp⟩
      | succ k =>
          obtain ⟨t, ht⟩ := ih k
          by_cases hp : p a
          · exact ⟨t, by simp [hp, ht]⟩
          · exact ⟨t, by simp [hp, ht]⟩

theorem search_eq_matchedOf (s : Store) (collection query : String) (limit : Int) :
    search s collection query limit =
      (pySliceList limit (sortScoredDesc (matchedOf s collection query))).map Prod.fst := by
  unfold search matchedOf
  cases lookupColl s collection with
  | none => simp [sortScoredDesc, pySliceList]
  | some items => rfl

/-! ## Claim C1 -/

/-- Claim C1 as stated is false: `search` does not return an empty sequence
for every `limit ≤ 0`.  With `limit = -1 ≤ 0`, the Python slice
`scored_items[:-1]` keeps all but the last matching record, so a collection
with two matching records yields a one-element result. -/
theorem c1_counterexample :
    ((-1 : Int) ≤ 0) ∧ search demoStore "c" "a" (-1) ≠ [] := by
  constructor
  · decide
  · decide

/-- Claim C1 (amended): `search` returns the empty sequence for `limit = 0`,
but for a strictly negative limit it instead drops the final `|limit|`
matching records (Python slice semantics), so the result length is the
number of matching records minus `|limit|` (truncated at zero) and can be
nonzero. -/
theorem search_limit_nonpositive (s : Store) (collection query : String)
    (limit : Int) (h : limit < 0) :
    search s collection query 0 = [] ∧
    (search s collection query limit).length =
      (matchedOf s collection query).length - (-limit).toNat := by
  constructor
  · rw [search_eq_matchedOf]
    simp [pySliceList]
  · rw [search_eq_matchedOf]
    have hneg : ¬ (0 : Int) ≤ limit := by omega
    simp [pySliceList, hneg, sortScoredDesc_length]

/-- Witness for the amended claim C1 at a concrete store and limit `-1`. -/
theorem search_limit_nonpositive_witness :
    search demoStore "c" "a" 0 = [] ∧
    (search demoStore "c" "a" (-1)).length =
      (matchedOf demoStore "c" "a").length - (-(-1 : Int)).toNat :=
  search_limit_nonpositive demoStore "c" "a" (-1) (by decide)

/-! ## Claim C10 -/

/-- Claim C10: `search` never mutates the store.  In the state-passing
rendering of the method the returned store is the input store, and in
particular every collection holds exactly the same record sequence
afterwards. -/
theorem search_preserves_store (s : Store) (collection query : String) (limit : Int) :
    (search_state s collection query limit).2 = s ∧
    ∀ name, lookupColl (search_state s collection query limit).2 name = lookupColl s name :=
  ⟨rfl, fun _ => rfl⟩

/-! ## Claim C3 -/

/-- Claim C3: `search` sorts the matching records by score descending with a
stable sort.  The result is the score-descending sorted matched list, sliced
and stripped of scores; the sorted list is pairwise score-descending; and for
every score value, the records of exactly that score appear in the sorted
list precisely in insertion order (and in the sliced result as an initial
segment of that insertion-ordered list), which is the equal-score tie-break
the claim describes. -/
theorem search_stable_tie_break (s : Store) (collection query : String) (limit : Int) :
    search s collection query limit =
      (pySliceList limit (sortScoredDesc (matchedOf s collection query))).map Prod.fst ∧
    List.Pairwise (fun a b => b.2 ≤ a.2) (sortScoredDesc (matchedOf s collection query)) ∧
    (∀ sc : Nat,
      (sortScoredDesc (matchedOf s collection query)).filter (fun p => decide (p.2 = sc)) =
        (matchedOf s collection query).filter (fun p => decide (p.2 = sc))) ∧
    (∀ sc : Nat,
      leadsSeq
        ((pySliceList limit (sortScoredDesc (matchedOf s collection query))).filter
          (fun p => decide (p.2 = sc)))
        ((matchedOf s collection query).filter (fun p => decide (p.2 = sc)))) := by
  refine ⟨search_eq_matchedOf s collection query limit,
    pairwise_sortScoredDesc _, fun sc => filter_sortScoredDesc _ sc, fun sc => ?_⟩
  obtain ⟨k, hk⟩ := pySliceList_eq_take limit (sortScoredDesc (matchedOf s collection query))
  rw [hk, ← filter_sortScoredDesc (matchedOf s collection query) sc]
  exact filter_take_leadsSeq _ _ k

/-! ## Claim C8 -/

theorem lookupColl_append_of_none {s : Store} {name : String}
    (h : lookupColl s name = none) (l2 : Store) :
    lookupColl (s ++ l2) name = lookupColl l2 name := by
  induction s with
  | nil => rfl
  | cons e s ih =>
      obtain ⟨n, rs⟩ := e
      rw [lookupColl] at h
      by_cases hn : n = name
      · simp [hn] at h
      · rw [List.cons_append, lookupColl]
        simp only [hn, if_neg, not_false_iff]
        exact ih (by simpa [lookupColl, hn] using h)

theorem lookupColl_appendRecord (s : Store) (name : String) (r : MemoryRecord) :
    lookupColl (appendRecord s name r) name = (lookupColl s name).map (fun rs => rs ++ [r]) := by
  induction s with
  | nil => rfl
  | cons e s ih =>
      obtain ⟨n, rs⟩ := e
      by_cases hn : n = name
      · simp [appendRecord, lookupColl, hn]
      · simp [appendRecord, lookupColl, hn, ih]

/-- Claim C8: saving into an absent collection auto-creates it, appends the
record, and a subsequent `search` of that collection with a matching query
and a positive limit returns the record. -/
theorem save_then_search_roundtrip (s : Store) (name category text query : String)
    (limit : Int) (habsent : lookupColl s name = none) (hlim : 1 ≤ limit)
    (hscore : 0 < recordScore (keywordsOf query) { category := category, text := text }) :
    lookupColl (save_information s name category text) name =
      some [{ category := category, text := text }] ∧
    { category := category, text := text } ∈
      search (save_information s name category text) name query limit := by
  have hhas : hasColl s name = false := by simp [hasColl, habsent]
  have hstore : save_information s name category text =
      appendRecord (s ++ [(name, [])]) name { category := category, text := text } := by
    unfold save_information create_collection
    simp [hhas]
  have hlook : lookupColl (save_information s name category text) name =
      some [{ category := category, text := text }] := by
    rw [hstore, lookupColl_appendRecord, lookupColl_append_of_none habsent]
    simp [lookupColl]
  refine ⟨hlook, ?_⟩
  have hsearch : search (save_information s name category text) name query limit =
      (pySliceList limit (sortScoredDesc
        (matchedScored [{ category := category, text := text }] (keywordsOf query)))).map
        Prod.fst := by
    unfold search
    rw [hlook]
  rw [hsearch]
  have hmatch : matchedScored [{ category := category, text := text }] (keywordsOf query) =
      [({ category := category, text := text },
        recordScore (keywordsOf query) { category := category, text := text })] := by
    unfold matchedScored
    simp [hscore]
  rw [hmatch]
  have h0 : (0 : Int) ≤ limit := by omega
  have h1 : 1 ≤ limit.toNat := by omega
  unfold sortScoredDesc sortScoredDesc insDesc pySliceList
  simp only [h0, if_pos]
  obtain ⟨k, hk⟩ : ∃ k, limit.toNat = k + 1 := ⟨limit.toNat - 1, by omega⟩
  rw [hk]
  simp

/-! ## Lemmas about the EXTRACT step: fallback paths -/

theorem pyFindAux_eq_none {c : Char} {s : List Char} (h : c ∉ s) : pyFindAux c s = none := by
  induction s with
  | nil => rfl
  | cons a r ih =>
      have ha : ¬ a = c := fun e => h (e ▸ List.mem_cons_self a r)
      simp [pyFindAux, ha, ih (fun hm => h (List.mem_cons_of_mem a hm))]

theorem extract_fallback_of_no_lbrace (d dates t : List Char) (h : lbrace ∉ t) :
    extractTravelPlan d dates t = fallbackPlan d dates t := by
  have h1 : pyFind lbrace t = -1 := by simp [pyFind, pyFindAux_eq_none h]
  have hcond : ¬ ((0 : Int) ≤ pyFind lbrace t ∧ pyFind lbrace t < pyRfind rbrace t + 1) := by
    rw [h1]
    intro hc
    omega
  simp only [extractTravelPlan]
  rw [if_neg hcond]

/-! ## Claim C4 -/

/-- Claim C4 as stated is false: on the no-brace fallback path the
`activities` field is the one-element sequence containing the placeholder
string, not the placeholder string itself (and only four fields other than
destination, the dates, and notes exist, not five). -/
theorem c4_counterexample :
    lbrace ∉ ("hello".toList) ∧ rbrace ∉ ("hello".toList) ∧
    (extractTravelPlan ("X".toList) ("D".toList) ("hello".toList)).activities ≠
      Json.str placeholderText ∧
    (extractTravelPlan ("X".toList) ("D".toList) ("hello".toList)).activities =
      Json.arr [Json.str placeholderText] := by
  have hact : (extractTravelPlan ("X".toList) ("D".toList) ("hello".toList)).activities =
      Json.arr [Json.str placeholderText] := by rfl
  refine ⟨by decide, by decide, ?_, hact⟩
  intro h
  exact Json.noConfusion (hact.symm.trans h)

/-- Claim C4 (amended): for a final-stage output with no braces, the plan is
the fallback: `notes` is the entire output, `accommodation`,
`transportation` and `budget_estimate` equal the placeholder string,
`activities` is the one-element sequence containing the placeholder string,
and `destination` is the destination argument (dates per the date-range
fallback). -/
theorem extract_fallback_fields (d dates t : List Char)
    (h1 : lbrace ∉ t) (_hr : rbrace ∉ t) :
    extractTravelPlan d dates t = fallbackPlan d dates t ∧
    (extractTravelPlan d dates t).notes = Json.str t ∧
    (extractTravelPlan d dates t).accommodation = Json.str placeholderText ∧
    (extractTravelPlan d dates t).transportation = Json.str placeholderText ∧
    (extractTravelPlan d dates t).budget_estimate = Json.str placeholderText ∧
    (extractTravelPlan d dates t).activities = Json.arr [Json.str placeholderText] ∧
    (extractTravelPlan d dates t).destination = Json.str d := by
  have he := extract_fallback_of_no_lbrace d dates t h1
  rw [he]
  exact ⟨rfl, rfl, rfl, rfl, rfl, rfl, rfl⟩

/-- Witness for the amended claim C4 at a concrete brace-free output. -/
theorem extract_fallback_fields_witness :
    extractTravelPlan ("X".toList) ("D".toList) ("hi".toList) =
      fallbackPlan ("X".toList) ("D".toList) ("hi".toList) :=
  (extract_fallback_fields ("X".toList) ("D".toList) ("hi".toList)
    (by decide) (by decide)).1

/-! ## Claim C7 -/

theorem pySplitChar_of_not_mem {c : Char} {w : List Char} (h : c ∉ w) :
    pySplitChar c w = [w] := by
  induction w with
  | nil => rfl
  | cons a r ih =>
      have ha : ¬ a = c := fun e => h (e ▸ List.mem_cons_self a r)
      simp [pySplitChar, ha, ih (fun hm => h (List.mem_cons_of_mem a hm))]

theorem pySplitChar_append {c : Char} {w : List Char} (h : c ∉ w) (r : List Char) :
    pySplitChar c (w ++ c :: r) = w :: pySplitChar c r := by
  induction w with
  | nil => simp [pySplitChar]
  | cons a w' ih =>
      have ha : ¬ a = c := fun e => h (e ▸ List.mem_cons_self a w')
      have hw : c ∉ w' := fun hm => h (List.mem_cons_of_mem a hm)
      simp [pySplitChar, ha, ih hw]

/-- Claim C7: on the fallback path, a dates string containing the delimiter
`至` splits into the two trimmed substrings around the delimiter for
start/end date, and a dates string without the delimiter becomes the start
date with an empty end date. -/
theorem fallback_date_split (d a b t : List Char)
    (ht : lbrace ∉ t) (ha : '至' ∉ a) (hb : '至' ∉ b) :
    (extractTravelPlan d (a ++ '至' :: b) t).start_date = Json.str (pyStrip a) ∧
    (extractTravelPlan d (a ++ '至' :: b) t).end_date = Json.str (pyStrip b) ∧
    (extractTravelPlan d a t).start_date = Json.str a ∧
    (extractTravelPlan d a t).end_date = Json.str [] := by
  rw [extract_fallback_of_no_lbrace d (a ++ '至' :: b) t ht,
    extract_fallback_of_no_lbrace d a t ht]
  have hmem : '至' ∈ a ++ '至' :: b := List.mem_append_right a (List.mem_cons_self _ _)
  have hsplit : pySplitChar '至' (a ++ '至' :: b) = a :: pySplitChar '至' b :=
    pySplitChar_append ha b
  rw [pySplitChar_of_not_mem hb] at hsplit
  unfold fallbackPlan
  simp [hmem, hsplit, ha]

/-- Witness for claim C7 at the spec's concrete example date range. -/
theorem fallback_date_split_witness :
    (extractTravelPlan ("X".toList) (("2025-03-15 ".toList) ++ '至' :: (" 2025-03-20".toList))
        ("plan".toList)).start_date = Json.str (pyStrip ("2025-03-15 ".toList)) ∧
    (extractTravelPlan ("X".toList) (("2025-03-15 ".toList) ++ '至' :: (" 2025-03-20".toList))
        ("plan".toList)).end_date = Json.str (pyStrip (" 2025-03-20".toList)) ∧
    (extractTravelPlan ("X".toList) ("2025-03-15 ".toList) ("plan".toList)).start_date =
      Json.str ("2025-03-15 ".toList) ∧
    (extractTravelPlan ("X".toList) ("2025-03-15 ".toList) ("plan".toList)).end_date =
      Json.str [] :=
  fallback_date_split ("X".toList) ("2025-03-15 ".toList) (" 2025-03-20".toList)
    ("plan".toList) (by decide) (by decide) (by decide)

/-! ## Claim C6 -/

/-- Claim C6: the EXTRACT step is total for every final-stage output (the
three generation stages having succeeded and produced arbitrary text): the
returned plan is either built from a successfully parsed JSON object or is
exactly the local fallback plan, so every run yields a fully populated
TravelPlan and no extraction failure reaches the caller. -/
theorem extract_total_cases (d dates t : List Char) :
    extractTravelPlan d dates t = fallbackPlan d dates t ∨
    ∃ fields, jsonLoads ((t.drop (pyFind lbrace t).toNat).take
        ((pyRfind rbrace t + 1) - pyFind lbrace t).toNat) = some (Json.obj fields) ∧
      extractTravelPlan d dates t = planFromFields d fields := by
  simp only [extractTravelPlan]
  by_cases hc : (0 : Int) ≤ pyFind lbrace t ∧ pyFind lbrace t < pyRfind rbrace t + 1
  · rw [if_pos hc]
    rcases hj : jsonLoads ((t.drop (pyFind lbrace t).toNat).take
        ((pyRfind rbrace t + 1) - pyFind lbrace t).toNat) with _ | v
    · exact Or.inl rfl
    · cases v with
      | obj fields => exact Or.inr ⟨fields, rfl, rfl⟩
      | str s => exact Or.inl rfl
      | num n => exact Or.inl rfl
      | bool b => exact Or.inl rfl
      | null => exact Or.inl rfl
      | arr l => exact Or.inl rfl
  · rw [if_neg hc]
    exact Or.inl rfl

/-! ## Claim C2 -/

theorem pyGet_of_not_mem {fields : List (List Char × Json)} {key : List Char}
    (h : ∀ p ∈ fields, p.1 ≠ key) (dflt : Json) : pyGet fields key dflt = dflt := by
  induction fields generalizing dflt with
  | nil => rfl
  | cons m ms ih =>
      obtain ⟨k, v⟩ := m
      have hk : ¬ k = key := h (k, v) (List.mem_cons_self _ _)
      rw [pyGet, if_neg hk]
      exact ih (fun p hp => h p (List.mem_cons_of_mem _ hp)) dflt

theorem pyGet_last_binding (fields1 : List (List Char × Json)) (key : List Char) (v : Json)
    (fields2 : List (List Char × Json)) (h : ∀ p ∈ fields2, p.1 ≠ key) (dflt : Json) :
    pyGet (fields1 ++ (key, v) :: fields2) key dflt = v := by
  induction fields1 generalizing dflt with
  | nil =>
      rw [List.nil_append, pyGet, if_pos rfl]
      exact pyGet_of_not_mem h v
  | cons m ms ih =>
      obtain ⟨k, w⟩ := m
      rw [List.cons_append, pyGet]
      by_cases hk : k = key
      · rw [if_pos hk]
        exact ih w
      · rw [if_neg hk]
        exact ih dflt

/-- Claim C2 as stated is false: the final-stage output `"{}"` parses as a
JSON object with no keys, yet the resulting destination is the destination
input argument, not the empty string; the code's default for the
`destination` key is the input argument. -/
theorem c2_counterexample :
    (extractTravelPlan ("X".toList) ("D".toList) ("\x7b\x7d".toList)).destination ≠
      Json.str [] ∧
    (extractTravelPlan ("X".toList) ("D".toList) ("\x7b\x7d".toList)).destination =
      Json.str ("X".toList) := by
  have h2 : (extractTravelPlan ("X".toList) ("D".toList) ("\x7b\x7d".toList)).destination =
      Json.str ("X".toList) := by rfl
  refine ⟨?_, h2⟩
  intro h
  rw [h2] at h
  injection h with h3
  exact absurd h3 (by decide)

/-- Claim C2 (amended): when the slice between the first opening brace and
the last closing brace parses as a JSON object, each of the eight recognized
keys populates its field (last occurrence winning, as for a Python dict),
and a missing key defaults to an empty value — the empty sequence for
`activities` and the empty string for the others — except `destination`,
whose default is the `destination` input argument. -/
theorem extract_parsed_fields (d dates t : List Char) (fields : List (List Char × Json))
    (hc : (0 : Int) ≤ pyFind lbrace t ∧ pyFind lbrace t < pyRfind rbrace t + 1)
    (hp : jsonLoads ((t.drop (pyFind lbrace t).toNat).take
        ((pyRfind rbrace t + 1) - pyFind lbrace t).toNat) = some (Json.obj fields)) :
    extractTravelPlan d dates t = planFromFields d fields ∧
    (extractTravelPlan d dates t).destination = pyGet fields keyDestination (Json.str d) ∧
    (extractTravelPlan d dates t).start_date = pyGet fields keyStartDate (Json.str []) ∧
    (extractTravelPlan d dates t).end_date = pyGet fields keyEndDate (Json.str []) ∧
    (extractTravelPlan d dates t).activities = pyGet fields keyActivities (Json.arr []) ∧
    (extractTravelPlan d dates t).accommodation =
      pyGet fields keyAccommodation (Json.str []) ∧
    (extractTravelPlan d dates t).transportation =
      pyGet fields keyTransportation (Json.str []) ∧
    (extractTravelPlan d dates t).budget_estimate =
      pyGet fields keyBudgetEstimate (Json.str []) ∧
    (extractTravelPlan d dates t).notes = pyGet fields keyNotes (Json.str []) ∧
    ((∀ p ∈ fields, p.1 ≠ keyDestination) →
      (extractTravelPlan d dates t).destination = Json.str d) ∧
    ((∀ p ∈ fields, p.1 ≠ keyStartDate) →
      (extractTravelPlan d dates t).start_date = Json.str []) ∧
    ((∀ p ∈ fields, p.1 ≠ keyEndDate) →
      (extractTravelPlan d dates t).end_date = Json.str []) ∧
    ((∀ p ∈ fields, p.1 ≠ keyActivities) →
      (extractTravelPlan d dates t).activities = Json.arr []) ∧
    ((∀ p ∈ fields, p.1 ≠ keyAccommodation) →
      (extractTravelPlan d dates t).accommodation = Json.str []) ∧
    ((∀ p ∈ fields, p.1 ≠ keyTransportation) →
      (extractTravelPlan d dates t).transportation = Json.str []) ∧
    ((∀ p ∈ fields, p.1 ≠ keyBudgetEstimate) →
      (extractTravelPlan d dates t).budget_estimate = Json.str []) ∧
    ((∀ p ∈ fields, p.1 ≠ keyNotes) →
      (extractTravelPlan d dates t).notes = Json.str []) := by
  have he : extractTravelPlan d dates t = planFromFields d fields := by
    simp only [extractTravelPlan]
    rw [if_pos hc, hp]
  rw [he]
  unfold planFromFields
  exact ⟨rfl, rfl, rfl, rfl, rfl, rfl, rfl, rfl, rfl,
    fun h => pyGet_of_not_mem h _, fun h => pyGet_of_not_mem h _,
    fun h => pyGet_of_not_mem h _, fun h => pyGet_of_not_mem h _,
    fun h => pyGet_of_not_mem h _, fun h => pyGet_of_not_mem h _,
    fun h => pyGet_of_not_mem h _, fun h => pyGet_of_not_mem h _⟩

/-- Witness for the amended claim C2 at the concrete output `"{}"`. -/
theorem extract_parsed_fields_witness :
    extractTravelPlan ("X".toList) ("D".toList) ("\x7b\x7d".toList) =
      planFromFields ("X".toList) [] :=
  (extract_parsed_fields ("X".toList) ("D".toList) ("\x7b\x7d".toList) []
    (by decide) (by rfl)).1

/-! ## Claim C9 -/

/-- Claim C9 as stated is false: the id `"all"` does not parse as an
integer, yet `delete_reminder` deletes every reminder and returns the
deleted-all message instead of returning the invalid-id message with the
list unchanged. -/
theorem c9_counterexample :
    pyParseInt (pyStripStr "all") = none ∧
    (delete_reminder [{ id := "1", task := "meeting", time := "9am" }] "all").2 = [] ∧
    (delete_reminder [{ id := "1", task := "meeting", time := "9am" }] "all").2 ≠
      [{ id := "1", task := "meeting", time := "9am" }] ∧
    (delete_reminder [{ id := "1", task := "meeting", time := "9am" }] "all").1 ≠
      invalidIdMsg (pyStripStr "all") := by
  exact ⟨by rfl, by rfl, by decide, by decide⟩

/-- Claim C9 (amended): except for the special ids `"all"` and `"全部"`
(case-insensitive after stripping), which delete every reminder and return a
summary message, an id that does not parse as an integer returns the
invalid-id message and an integer id outside `1..length` returns the
not-found message, in both cases leaving the reminder list unchanged. -/
theorem delete_reminder_messages (reminders : List Reminder) (id : String)
    (hall : pyLowerStr (pyStripStr id) ≠ "all")
    (hquan : pyLowerStr (pyStripStr id) ≠ "全部") :
    (pyParseInt (pyStripStr id) = none →
      delete_reminder reminders id = (invalidIdMsg (pyStripStr id), reminders)) ∧
    (∀ n : Int, pyParseInt (pyStripStr id) = some n →
      ¬ (1 ≤ n ∧ n ≤ (reminders.length : Int)) →
      delete_reminder reminders id = (notFoundMsg (pyStripStr id), reminders)) := by
  have hor : ¬ (pyLowerStr (pyStripStr id) = "all" ∨ pyLowerStr (pyStripStr id) = "全部") :=
    not_or.mpr ⟨hall, hquan⟩
  constructor
  · intro hp
    simp only [delete_reminder]
    rw [if_neg hor, hp]
  · intro n hp hrange
    simp only [delete_reminder]
    rw [if_neg hor, hp]
    simp only [if_neg hrange]

/-- Witness for the amended claim C9 at a non-numeric id and an out-of-range
numeric id. -/
theorem delete_reminder_messages_witness :
    delete_reminder [] "abc" = (invalidIdMsg (pyStripStr "abc"), []) ∧
    delete_reminder [] "9" = (notFoundMsg (pyStripStr "9"), []) :=
  ⟨(delete_reminder_messages [] "abc" (by decide) (by decide)).1 (by rfl),
   (delete_reminder_messages [] "9" (by decide) (by decide)).2 9 (by rfl) (by decide)⟩

/-- Witness for claim C8 at a concrete store and query. -/
theorem save_then_search_roundtrip_witness :
    lookupColl (save_information [] "prefs" "food" "sushi rice") "prefs" =
      some [{ category := "food", text := "sushi rice" }] ∧
    { category := "food", text := "sushi rice" } ∈
      search (save_information [] "prefs" "food" "sushi rice") "prefs" "sushi" 1 :=
  save_then_search_roundtrip [] "prefs" "food" "sushi rice" "sushi" 1
    (by rfl) (by decide) (by decide)

/-! ## Round-trip lemmas for the JSON parser on rendered values -/

theorem skipWs_cons_of_not_ws {c : Char} (h : c.isWhitespace = false) (r : List Char) :
    skipWs (c :: r) = c :: r := by
  simp [skipWs, h]

theorem parseStrBodyAux_render (s rest : List Char) :
    parseStrBodyAux false (renderStrBody s ++ '"' :: rest) = some (s, rest) := by
  induction s with
  | nil => simp [renderStrBody, parseStrBodyAux]
  | cons c cs ih =>
      by_cases hq : c = '"'
      · subst hq
        simp [renderStrBody, parseStrBodyAux, unescapeChar, ih]
      · by_cases hb : c = '\\'
        · subst hb
          simp [renderStrBody, parseStrBodyAux, unescapeChar, ih]
        · simp [renderStrBody, parseStrBodyAux, hq, hb, ih]

theorem parseStrBody_render (s rest : List Char) :
    parseStrBody (renderStrBody s ++ '"' :: rest) = some (s, rest) :=
  parseStrBodyAux_render s rest

theorem parseValue_str (f : Nat) (s rest : List Char) :
    parseValue (f + 1) (renderStr s ++ rest) = some (Json.str s, rest) := by
  rw [renderStr, List.cons_append, List.append_assoc, List.singleton_append]
  simp [parseValue, parseStrBody_render]

/-! ## One-step unfolding lemmas for the parser and renderer -/

theorem parseValue_quote (f : Nat) (r : List Char) :
    parseValue (f + 1) ('"' :: r) =
      (match parseStrBody r with
       | some (cs, r2) => some (Json.str cs, r2)
       | none => none) := by rfl

theorem parseValue_lsq (f : Nat) (r : List Char) :
    parseValue (f + 1) ('[' :: r) =
      (match skipWs r with
       | [] => none
       | c2 :: r2 =>
          if c2 = ']' then some (Json.arr [], r2)
          else
            match parseValue f (c2 :: r2) with
            | some (v, r3) =>
                match parseElems f r3 with
                | some (vs, r4) => some (Json.arr (v :: vs), r4)
                | none => none
            | none => none) := by rfl

theorem parseValue_lbrace (f : Nat) (r : List Char) :
    parseValue (f + 1) (lbrace :: r) =
      (match skipWs r with
       | [] => none
       | c2 :: r2 =>
          if c2 = rbrace then some (Json.obj [], r2)
          else
            match parseMember f (c2 :: r2) with
            | some (m, r3) =>
                match parseMembers f r3 with
                | some (ms, r4) => some (Json.obj (m :: ms), r4)
                | none => none
            | none => none) := by rfl

theorem parseMember_quote (f : Nat) (r : List Char) :
    parseMember (f + 1) ('"' :: r) =
      (match parseStrBody r with
       | some (k, r2) =>
          (match skipWs r2 with
           | ':' :: r3 =>
              (match parseValue f (skipWs r3) with
               | some (v, r4) => some ((k, v), r4)
               | none => none)
           | _ => none)
       | none => none) := by rfl

theorem parseMembers_comma (f : Nat) (r : List Char) :
    parseMembers (f + 1) (',' :: r) =
      (match parseMember f (skipWs r) with
       | some (m, r2) =>
          match parseMembers f r2 with
          | some (ms, r3) => some (m :: ms, r3)
          | none => none
       | none => none) := by rfl

theorem parseMembers_close (f : Nat) (r : List Char) :
    parseMembers (f + 1) (rbrace :: r) = some ([], r) := by rfl

theorem parseElems_comma (f : Nat) (r : List Char) :
    parseElems (f + 1) (',' :: r) =
      (match parseValue f (skipWs r) with
       | some (v, r2) =>
          match parseElems f r2 with
          | some (vs, r3) => some (v :: vs, r3)
          | none => none
       | none => none) := by rfl

theorem parseElems_close (f : Nat) (r : List Char) :
    parseElems (f + 1) (']' :: r) = some ([], r) := by rfl

theorem render_str_eq (s : List Char) : render (Json.str s) = renderStr s := by
  rw [render.eq_def]

theorem render_arr_nil : render (Json.arr []) = '[' :: ']' :: [] := by
  rw [render.eq_def]

theorem render_arr_cons (v : Json) (vs : List Json) :
    render (Json.arr (v :: vs)) = '[' :: (render v ++ renderElems vs) := by
  rw [render.eq_def]

theorem render_obj_cons (m : List Char × Json) (ms : List (List Char × Json)) :
    render (Json.obj (m :: ms)) = lbrace :: (renderMember m ++ renderMembersRest ms) := by
  rw [render.eq_def]

theorem renderMember_eq (k : List Char) (v : Json) :
    renderMember (k, v) = renderStr k ++ (':' :: render v) := by
  rw [renderMember.eq_def]

theorem renderElems_nil : renderElems [] = [']'] := by
  rw [renderElems.eq_def]

theorem renderElems_cons (v : Json) (vs : List Json) :
    renderElems (v :: vs) = ',' :: (render v ++ renderElems vs) := by
  rw [renderElems.eq_def]

theorem renderMembersRest_nil : renderMembersRest [] = [rbrace] := by
  rw [renderMembersRest.eq_def]

theorem renderMembersRest_cons (m : List Char × Json) (ms : List (List Char × Json)) :
    renderMembersRest (m :: ms) = ',' :: (renderMember m ++ renderMembersRest ms) := by
  rw [renderMembersRest.eq_def]

theorem skipWs_render_strval (v : Json) (hv : IsStrVal v) (rest : List Char) :
    skipWs (render v ++ rest) = render v ++ rest := by
  rcases hv with ⟨s, rfl⟩ | ⟨acts, rfl⟩
  · rw [render_str_eq, renderStr, List.cons_append, skipWs_cons_of_not_ws (by decide)]
  · cases acts with
    | nil => rw [List.map_nil, render_arr_nil, List.cons_append, skipWs_cons_of_not_ws (by decide)]
    | cons a as =>
        rw [List.map_cons, render_arr_cons, List.cons_append, skipWs_cons_of_not_ws (by decide)]

/-! ## Round-trip of the parser on rendered values of the claimed shapes -/

theorem parseElems_render_strs (as : List (List Char)) (f : Nat) (rest : List Char)
    (hf : as.length + 1 ≤ f) :
    parseElems f (renderElems (as.map Json.str) ++ rest) = some (as.map Json.str, rest) := by
  induction as generalizing f with
  | nil =>
      obtain ⟨f', rfl⟩ : ∃ f', f = f' + 1 := ⟨f - 1, by omega⟩
      rw [List.map_nil, renderElems_nil, List.singleton_append, parseElems_close]
  | cons a as' ih =>
      obtain ⟨f', rfl⟩ : ∃ f', f = f' + 1 := ⟨f - 1, by omega⟩
      have hlen : as'.length + 1 ≤ f' := by
        simp only [List.length_cons] at hf
        omega
      obtain ⟨f'', rfl⟩ : ∃ f'', f' = f'' + 1 := ⟨f' - 1, by omega⟩
      rw [List.map_cons, renderElems_cons, List.cons_append, List.append_assoc,
        parseElems_comma,
        skipWs_render_strval (Json.str a) (Or.inl ⟨a, rfl⟩), render_str_eq]
      rw [parseValue_str]
      simp [ih (f'' + 1) hlen]

theorem parseValue_arr_strs (acts : List (List Char)) (f : Nat) (rest : List Char)
    (hf : acts.length + 2 ≤ f) :
    parseValue f (render (Json.arr (acts.map Json.str)) ++ rest) =
      some (Json.arr (acts.map Json.str), rest) := by
  obtain ⟨f', rfl⟩ : ∃ f', f = f' + 1 := ⟨f - 1, by omega⟩
  cases acts with
  | nil =>
      rw [List.map_nil, render_arr_nil, List.cons_append, List.cons_append, parseValue_lsq,
        skipWs_cons_of_not_ws (by decide)]
      simp
  | cons a as =>
      have has : as.length + 1 ≤ f' := by
        simp only [List.length_cons] at hf
        omega
      obtain ⟨f'', rfl⟩ : ∃ f'', f' = f'' + 1 := ⟨f' - 1, by omega⟩
      rw [List.map_cons, render_arr_cons, List.cons_append, List.append_assoc, parseValue_lsq,
        skipWs_render_strval (Json.str a) (Or.inl ⟨a, rfl⟩), render_str_eq, renderStr,
        List.cons_append]
      have hq : parseValue (f'' + 1)
          ('"' :: (renderStrBody a ++ '"' :: (renderElems (as.map Json.str) ++ rest))) =
          some (Json.str a, renderElems (as.map Json.str) ++ rest) := by
        rw [parseValue_quote, parseStrBody_render]
      simp [hq, parseElems_render_strs as (f'' + 1) rest has]

theorem parseValue_strval (v : Json) (hv : IsStrVal v) (f : Nat) (rest : List Char)
    (hf : svFuel v ≤ f) :
    parseValue f (render v ++ rest) = some (v, rest) := by
  rcases hv with ⟨s, rfl⟩ | ⟨acts, rfl⟩
  · have h1 : svFuel (Json.str s) = 1 := rfl
    rw [h1] at hf
    obtain ⟨f', rfl⟩ : ∃ f', f = f' + 1 := ⟨f - 1, by omega⟩
    rw [render_str_eq]
    exact parseValue_str f' s rest
  · exact parseValue_arr_strs acts f rest (by simpa [svFuel] using hf)

theorem parseMember_render (k : List Char) (v : Json) (hv : IsStrVal v) (f : Nat)
    (rest : List Char) (hf : svFuel v + 1 ≤ f) :
    parseMember f (renderMember (k, v) ++ rest) = some ((k, v), rest) := by
  have hge : 1 ≤ f := le_trans (Nat.le_add_left 1 (svFuel v)) hf
  obtain ⟨f', rfl⟩ : ∃ f', f = f' + 1 := ⟨f - 1, by omega⟩
  rw [renderMember_eq, renderStr]
  simp only [List.cons_append, List.append_assoc, List.singleton_append, List.nil_append]
  rw [parseMember_quote, parseStrBody_render]
  have hcolon : skipWs (':' :: (render v ++ rest)) = ':' :: (render v ++ rest) :=
    skipWs_cons_of_not_ws (by decide) _
  have hval : parseValue f' (render v ++ rest) = some (v, rest) :=
    parseValue_strval v hv f' rest (Nat.le_of_succ_le_succ hf)
  simp [hcolon, skipWs_render_strval v hv, hval]

theorem parseMembers_render (ms : List (List Char × Json)) (f : Nat) (rest : List Char)
    (hv : ∀ m ∈ ms, IsStrVal m.2) (hf : msFuel ms ≤ f) :
    parseMembers f (renderMembersRest ms ++ rest) = some (ms, rest) := by
  induction ms generalizing f with
  | nil =>
      obtain ⟨f', rfl⟩ : ∃ f', f = f' + 1 := ⟨f - 1, by simp [msFuel] at hf; omega⟩
      rw [renderMembersRest_nil, List.singleton_append, parseMembers_close]
  | cons m ms' ih =>
      obtain ⟨k, v⟩ := m
      have hvv : IsStrVal v := hv (k, v) (List.mem_cons_self _ _)
      have hv' : ∀ p ∈ ms', IsStrVal p.2 := fun p hp => hv p (List.mem_cons_of_mem _ hp)
      have hms : msFuel ((k, v) :: ms') = svFuel v + msFuel ms' + 2 := rfl
      rw [hms] at hf
      have h1 : 1 ≤ msFuel ms' := by
        cases ms' with
        | nil => simp [msFuel]
        | cons p ps =>
            obtain ⟨k2, v2⟩ := p
            show 1 ≤ svFuel v2 + msFuel ps + 2
            omega
      obtain ⟨f', rfl⟩ : ∃ f', f = f' + 1 := ⟨f - 1, by omega⟩
      rw [renderMembersRest_cons, List.cons_append, List.append_assoc, parseMembers_comma]
      have hsk : skipWs (renderMember (k, v) ++ (renderMembersRest ms' ++ rest)) =
          renderMember (k, v) ++ (renderMembersRest ms' ++ rest) := by
        rw [renderMember_eq, renderStr, List.cons_append, List.cons_append,
          skipWs_cons_of_not_ws (by decide)]
      rw [hsk, parseMember_render k v hvv f' _ (by omega)]
      simp [ih f' hv' (by omega)]

theorem parseValue_obj_strvals (m : List Char × Json) (ms : List (List Char × Json))
    (f : Nat) (rest : List Char) (hv : ∀ p ∈ m :: ms, IsStrVal p.2)
    (hf : svFuel m.2 + msFuel ms + 2 ≤ f) :
    parseValue f (render (Json.obj (m :: ms)) ++ rest) = some (Json.obj (m :: ms), rest) := by
  obtain ⟨k, v⟩ := m
  have hvv : IsStrVal v := hv (k, v) (List.mem_cons_self _ _)
  have hv' : ∀ p ∈ ms, IsStrVal p.2 := fun p hp => hv p (List.mem_cons_of_mem _ hp)
  obtain ⟨f', rfl⟩ : ∃ f', f = f' + 1 := ⟨f - 1, by omega⟩
  rw [render_obj_cons, List.cons_append, List.append_assoc, parseValue_lbrace]
  have hsk : skipWs (renderMember (k, v) ++ (renderMembersRest ms ++ rest)) =
      renderMember (k, v) ++ (renderMembersRest ms ++ rest) := by
    rw [renderMember_eq, renderStr, List.cons_append, List.cons_append,
      skipWs_cons_of_not_ws (by decide)]
  rw [hsk]
  have hf2 : svFuel v + msFuel ms + 2 ≤ f' + 1 := hf
  have hpm := parseMember_render k v hvv f' (renderMembersRest ms ++ rest)
    (by have h0 : 0 ≤ msFuel ms := Nat.zero_le _; omega)
  have hpms := parseMembers_render ms f' rest hv' (by omega)
  have hne : ¬ ('"' : Char) = rbrace := by decide
  simp only [renderMember_eq, renderStr, List.append_assoc, List.cons_append,
    List.singleton_append, List.nil_append] at hpm ⊢
  simp [hpm, hpms, hne]

/-! ## Fuel bounds: the default fuel of `jsonLoads` suffices for rendered objects -/

theorem renderStr_length (s : List Char) : 2 ≤ (renderStr s).length := by
  rw [renderStr]
  simp

theorem renderElems_strs_length (as : List (List Char)) :
    as.length + 1 ≤ (renderElems (as.map Json.str)).length := by
  induction as with
  | nil => rw [List.map_nil, renderElems_nil]; simp
  | cons a as' ih =>
      rw [List.map_cons, renderElems_cons, render_str_eq]
      have h2 := renderStr_length a
      simp only [List.length_cons, List.length_append]
      omega

theorem svFuel_le_render (v : Json) (hv : IsStrVal v) : svFuel v ≤ (render v).length := by
  rcases hv with ⟨s, rfl⟩ | ⟨acts, rfl⟩
  · rw [render_str_eq]
    have := renderStr_length s
    have h1 : svFuel (Json.str s) = 1 := rfl
    omega
  · have h1 : svFuel (Json.arr (acts.map Json.str)) = acts.length + 2 := by
      simp [svFuel]
    rw [h1]
    cases acts with
    | nil => rw [List.map_nil, render_arr_nil]; simp
    | cons a as =>
        rw [List.map_cons, render_arr_cons, render_str_eq]
        have h2 := renderStr_length a
        have h3 := renderElems_strs_length as
        simp only [List.length_cons, List.length_append]
        omega

theorem renderMember_length (k : List Char) (v : Json) :
    3 + (render v).length ≤ (renderMember (k, v)).length := by
  rw [renderMember_eq]
  have := renderStr_length k
  simp only [List.length_append, List.length_cons]
  omega

theorem msFuel_le_renderMembersRest (ms : List (List Char × Json))
    (hv : ∀ p ∈ ms, IsStrVal p.2) : msFuel ms ≤ (renderMembersRest ms).length := by
  induction ms with
  | nil => rw [renderMembersRest_nil]; simp [msFuel]
  | cons m ms' ih =>
      obtain ⟨k, v⟩ := m
      have hvv : IsStrVal v := hv (k, v) (List.mem_cons_self _ _)
      have hv' : ∀ p ∈ ms', IsStrVal p.2 := fun p hp => hv p (List.mem_cons_of_mem _ hp)
      have h1 : msFuel ((k, v) :: ms') = svFuel v + msFuel ms' + 2 := rfl
      have h2 := renderMember_length k v
      have h3 := svFuel_le_render v hvv
      have h4 := ih hv'
      rw [h1, renderMembersRest_cons]
      simp only [List.length_cons, List.length_append]
      omega

theorem jsonLoads_render_obj (m : List Char × Json) (ms : List (List Char × Json))
    (hv : ∀ p ∈ m :: ms, IsStrVal p.2) :
    jsonLoads (render (Json.obj (m :: ms))) = some (Json.obj (m :: ms)) := by
  obtain ⟨k, v⟩ := m
  have hvv : IsStrVal v := hv (k, v) (List.mem_cons_self _ _)
  have hv' : ∀ p ∈ ms, IsStrVal p.2 := fun p hp => hv p (List.mem_cons_of_mem _ hp)
  have hsk : skipWs (render (Json.obj ((k, v) :: ms))) = render (Json.obj ((k, v) :: ms)) := by
    rw [render_obj_cons, skipWs_cons_of_not_ws (by decide)]
  have hlen1 := renderMember_length k v
  have hlen2 := msFuel_le_renderMembersRest ms hv'
  have hlen3 := svFuel_le_render v hvv
  have hflen : svFuel v + msFuel ms + 2 ≤ (render (Json.obj ((k, v) :: ms))).length + 1 := by
    rw [render_obj_cons]
    simp only [List.length_cons, List.length_append]
    omega
  have hp := parseValue_obj_strvals (k, v) ms
    ((render (Json.obj ((k, v) :: ms))).length + 1) [] hv hflen
  rw [List.append_nil] at hp
  unfold jsonLoads
  rw [hsk, hp]
  simp [skipWs]

/-! ## Locating the braces of an embedded rendered object -/

theorem pyFindAux_append {c : Char} {pre : List Char} (h : c ∉ pre) (suf : List Char) :
    pyFindAux c (pre ++ c :: suf) = some pre.length := by
  induction pre with
  | nil => simp [pyFindAux]
  | cons a as ih =>
      have ha : ¬ a = c := fun e => h (e ▸ List.mem_cons_self a as)
      simp [pyFindAux, ha, ih (fun hm => h (List.mem_cons_of_mem a hm))]

theorem pyFind_append {c : Char} {pre : List Char} (h : c ∉ pre) (suf : List Char) :
    pyFind c (pre ++ c :: suf) = (pre.length : Int) := by
  unfold pyFind
  rw [pyFindAux_append h]

theorem pyRfind_append (c : Char) (pre2 : List Char) {post : List Char} (h : c ∉ post) :
    pyRfind c (pre2 ++ c :: post) = (pre2.length : Int) := by
  have hfa : pyFindAux c ((pre2 ++ c :: post).reverse) = some post.reverse.length := by
    rw [List.reverse_append, List.reverse_cons, List.append_assoc, List.singleton_append]
    exact pyFindAux_append (fun hm => h (List.mem_reverse.mp hm)) _
  unfold pyRfind
  rw [hfa]
  have hlen : (pre2 ++ c :: post).length - 1 - post.reverse.length = pre2.length := by
    simp only [List.length_append, List.length_cons, List.length_reverse]
    omega
  simp only [hlen]

theorem renderMembersRest_ends (ms : List (List Char × Json)) :
    ∃ w, renderMembersRest ms = w ++ [rbrace] := by
  induction ms with
  | nil => exact ⟨[], by rw [renderMembersRest_nil]; rfl⟩
  | cons m ms' ih =>
      obtain ⟨w, hw⟩ := ih
      refine ⟨',' :: (renderMember m ++ w), ?_⟩
      rw [renderMembersRest_cons, hw]
      simp

/-- Extraction of a rendered JSON object embedded in brace-free context: the
first opening brace of the whole text is the object's opening brace, the
last closing brace is the object's closing brace, the slice between them is
exactly the rendered object, and parsing it succeeds, so the plan is built
from the object's members. -/
theorem extract_render_obj (pre post d dates : List Char) (m : List Char × Json)
    (ms : List (List Char × Json)) (hv : ∀ p ∈ m :: ms, IsStrVal p.2)
    (hpre : lbrace ∉ pre) (hpost : rbrace ∉ post) :
    extractTravelPlan d dates (pre ++ render (Json.obj (m :: ms)) ++ post) =
      planFromFields d (m :: ms) := by
  obtain ⟨w, hw⟩ := renderMembersRest_ends ms
  have hR : render (Json.obj (m :: ms)) = lbrace :: (renderMember m ++ (w ++ [rbrace])) := by
    rw [render_obj_cons, hw]
  have ht : pre ++ render (Json.obj (m :: ms)) ++ post =
      pre ++ lbrace :: ((renderMember m ++ (w ++ [rbrace])) ++ post) := by
    rw [hR]
    simp [List.append_assoc]
  have hfind : pyFind lbrace (pre ++ render (Json.obj (m :: ms)) ++ post) = (pre.length : Int) := by
    rw [ht]
    exact pyFind_append hpre _
  have ht2 : pre ++ render (Json.obj (m :: ms)) ++ post =
      (pre ++ lbrace :: (renderMember m ++ w)) ++ rbrace :: post := by
    rw [hR]
    simp [List.append_assoc]
  have hrfind : pyRfind rbrace (pre ++ render (Json.obj (m :: ms)) ++ post) =
      ((pre ++ lbrace :: (renderMember m ++ w)).length : Int) := by
    rw [ht2]
    exact pyRfind_append rbrace _ hpost
  have hRlen : (render (Json.obj (m :: ms))).length =
      (renderMember m ++ w).length + 2 := by
    rw [hR]
    simp
    omega
  have hlen2 : (pre ++ lbrace :: (renderMember m ++ w)).length =
      pre.length + (renderMember m ++ w).length + 1 := by
    simp
    omega
  have hcond : (0 : Int) ≤ (pre.length : Int) ∧
      (pre.length : Int) < ((pre ++ lbrace :: (renderMember m ++ w)).length : Int) + 1 := by
    constructor
    · exact Int.ofNat_nonneg _
    · rw [hlen2]
      push_cast
      omega
  have htoNat1 : ((pre.length : Int)).toNat = pre.length := by simp
  have htoNat2 : (((pre ++ lbrace :: (renderMember m ++ w)).length : Int) + 1 -
      (pre.length : Int)).toNat = (render (Json.obj (m :: ms))).length := by
    rw [hlen2, hRlen]
    push_cast
    omega
  have hslice : ((pre ++ render (Json.obj (m :: ms)) ++ post).drop
        ((pre.length : Int)).toNat).take
      ((((pre ++ lbrace :: (renderMember m ++ w)).length : Int) + 1 -
        (pre.length : Int)).toNat) = render (Json.obj (m :: ms)) := by
    rw [htoNat1, htoNat2, List.append_assoc, List.drop_left, List.take_left]
  have hload := jsonLoads_render_obj m ms hv
  simp only [extractTravelPlan]
  rw [hfind, hrfind, if_pos hcond, hslice, hload]

/-! ## Claim C5 -/

theorem planFromFields_travelPlanFields (d vd vs ve vac vtr vbu vno : List Char)
    (acts : List (List Char)) :
    planFromFields d (travelPlanFields vd vs ve acts vac vtr vbu vno) =
      { destination := Json.str vd
      , start_date := Json.str vs
      , end_date := Json.str ve
      , activities := Json.arr (acts.map Json.str)
      , accommodation := Json.str vac
      , transportation := Json.str vtr
      , budget_estimate := Json.str vbu
      , notes := Json.str vno } := by
  have hD : pyGet (travelPlanFields vd vs ve acts vac vtr vbu vno) keyDestination
      (Json.str d) = Json.str vd :=
    pyGet_last_binding [] keyDestination (Json.str vd)
      [(keyStartDate, Json.str vs), (keyEndDate, Json.str ve),
        (keyActivities, Json.arr (acts.map Json.str)), (keyAccommodation, Json.str vac),
        (keyTransportation, Json.str vtr), (keyBudgetEstimate, Json.str vbu),
        (keyNotes, Json.str vno)]
      (by intro p hp; fin_cases hp; all_goals simp; all_goals decide) _
  have hS : pyGet (travelPlanFields vd vs ve acts vac vtr vbu vno) keyStartDate
      (Json.str []) = Json.str vs :=
    pyGet_last_binding [(keyDestination, Json.str vd)] keyStartDate (Json.str vs)
      [(keyEndDate, Json.str ve),
        (keyActivities, Json.arr (acts.map Json.str)), (keyAccommodation, Json.str vac),
        (keyTransportation, Json.str vtr), (keyBudgetEstimate, Json.str vbu),
        (keyNotes, Json.str vno)]
      (by intro p hp; fin_cases hp; all_goals simp; all_goals decide) _
  have hE : pyGet (travelPlanFields vd vs ve acts vac vtr vbu vno) keyEndDate
      (Json.str []) = Json.str ve :=
    pyGet_last_binding [(keyDestination, Json.str vd), (keyStartDate, Json.str vs)]
      keyEndDate (Json.str ve)
      [(keyActivities, Json.arr (acts.map Json.str)), (keyAccommodation, Json.str vac),
        (keyTransportation, Json.str vtr), (keyBudgetEstimate, Json.str vbu),
        (keyNotes, Json.str vno)]
      (by intro p hp; fin_cases hp; all_goals simp; all_goals decide) _
  have hA : pyGet (travelPlanFields vd vs ve acts vac vtr vbu vno) keyActivities
      (Json.arr []) = Json.arr (acts.map Json.str) :=
    pyGet_last_binding
      [(keyDestination, Json.str vd), (keyStartDate, Json.str vs), (keyEndDate, Json.str ve)]
      keyActivities (Json.arr (acts.map Json.str))
      [(keyAccommodation, Json.str vac), (keyTransportation, Json.str vtr),
        (keyBudgetEstimate, Json.str vbu), (keyNotes, Json.str vno)]
      (by intro p hp; fin_cases hp; all_goals simp; all_goals decide) _
  have hAc : pyGet (travelPlanFields vd vs ve acts vac vtr vbu vno) keyAccommodation
      (Json.str []) = Json.str vac :=
    pyGet_last_binding
      [(keyDestination, Json.str vd), (keyStartDate, Json.str vs), (keyEndDate, Json.str ve),
        (keyActivities, Json.arr (acts.map Json.str))]
      keyAccommodation (Json.str vac)
      [(keyTransportation, Json.str vtr), (keyBudgetEstimate, Json.str vbu),
        (keyNotes, Json.str vno)]
      (by intro p hp; fin_cases hp; all_goals simp; all_goals decide) _
  have hT : pyGet (travelPlanFields vd vs ve acts vac vtr vbu vno) keyTransportation
      (Json.str []) = Json.str vtr :=
    pyGet_last_binding
      [(keyDestination, Json.str vd), (keyStartDate, Json.str vs), (keyEndDate, Json.str ve),
        (keyActivities, Json.arr (acts.map Json.str)), (keyAccommodation, Json.str vac)]
      keyTransportation (Json.str vtr)
      [(keyBudgetEstimate, Json.str vbu), (keyNotes, Json.str vno)]
      (by intro p hp; fin_cases hp; all_goals simp; all_goals decide) _
  have hB : pyGet (travelPlanFields vd vs ve acts vac vtr vbu vno) keyBudgetEstimate
      (Json.str []) = Json.str vbu :=
    pyGet_last_binding
      [(keyDestination, Json.str vd), (keyStartDate, Json.str vs), (keyEndDate, Json.str ve),
        (keyActivities, Json.arr (acts.map Json.str)), (keyAccommodation, Json.str vac),
        (keyTransportation, Json.str vtr)]
      keyBudgetEstimate (Json.str vbu)
      [(keyNotes, Json.str vno)]
      (by intro p hp; fin_cases hp; all_goals simp; all_goals decide) _
  have hN : pyGet (travelPlanFields vd vs ve acts vac vtr vbu vno) keyNotes
      (Json.str []) = Json.str vno :=
    pyGet_last_binding
      [(keyDestination, Json.str vd), (keyStartDate, Json.str vs), (keyEndDate, Json.str ve),
        (keyActivities, Json.arr (acts.map Json.str)), (keyAccommodation, Json.str vac),
        (keyTransportation, Json.str vtr), (keyBudgetEstimate, Json.str vbu)]
      keyNotes (Json.str vno) []
      (by intro p hp; fin_cases hp) _
  unfold planFromFields
  rw [hD, hS, hE, hA, hAc, hT, hB, hN]

/-- Claim C5: extraction round-trip.  For every final-stage output text of
the form `pre ++ rendered ++ post`, where `rendered` is a well-formed JSON
object supplying all eight recognized keys (string values, with a
string-sequence value for `activities`) and the surrounding text `pre`/`post`
contains no opening/closing brace of its own, the returned TravelPlan has
every field equal to the corresponding JSON value verbatim, with the
activities sequence preserved in order. -/
theorem extract_roundtrip (pre post d dates vd vs ve vac vtr vbu vno : List Char)
    (acts : List (List Char)) (hpre : lbrace ∉ pre) (hpost : rbrace ∉ post) :
    extractTravelPlan d dates
        (pre ++ render (Json.obj (travelPlanFields vd vs ve acts vac vtr vbu vno)) ++ post) =
      { destination := Json.str vd
      , start_date := Json.str vs
      , end_date := Json.str ve
      , activities := Json.arr (acts.map Json.str)
      , accommodation := Json.str vac
      , transportation := Json.str vtr
      , budget_estimate := Json.str vbu
      , notes := Json.str vno } := by
  have hv : ∀ p ∈ travelPlanFields vd vs ve acts vac vtr vbu vno, IsStrVal p.2 := by
    intro p hp
    fin_cases hp
    · exact Or.inl ⟨vd, rfl⟩
    · exact Or.inl ⟨vs, rfl⟩
    · exact Or.inl ⟨ve, rfl⟩
    · exact Or.inr ⟨acts, rfl⟩
    · exact Or.inl ⟨vac, rfl⟩
    · exact Or.inl ⟨vtr, rfl⟩
    · exact Or.inl ⟨vbu, rfl⟩
    · exact Or.inl ⟨vno, rfl⟩
  have hobj := extract_render_obj pre post d dates (keyDestination, Json.str vd)
    [(keyStartDate, Json.str vs), (keyEndDate, Json.str ve),
      (keyActivities, Json.arr (acts.map Json.str)), (keyAccommodation, Json.str vac),
      (keyTransportation, Json.str vtr), (keyBudgetEstimate, Json.str vbu),
      (keyNotes, Json.str vno)] hv hpre hpost
  rw [show ((keyDestination, Json.str vd) ::
      [(keyStartDate, Json.str vs), (keyEndDate, Json.str ve),
        (keyActivities, Json.arr (acts.map Json.str)), (keyAccommodation, Json.str vac),
        (keyTransportation, Json.str vtr), (keyBudgetEstimate, Json.str vbu),
        (keyNotes, Json.str vno)]) = travelPlanFields vd vs ve acts vac vtr vbu vno
    from rfl] at hobj
  rw [hobj, planFromFields_travelPlanFields]

/-- Witness for claim C5: a concrete embedded JSON object with three
activities. -/
theorem extract_roundtrip_witness :
    extractTravelPlan ("X".toList) ("D".toList)
        (("x".toList) ++ render (Json.obj (travelPlanFields ("Kyoto".toList)
          ("2025-03-15".toList) ("2025-03-20".toList)
          [("temple".toList), ("tea".toList), ("hike".toList)]
          ("inn".toList) ("train".toList) ("mid".toList) ("ok".toList))) ++ ("y".toList)) =
      { destination := Json.str ("Kyoto".toList)
      , start_date := Json.str ("2025-03-15".toList)
      , end_date := Json.str ("2025-03-20".toList)
      , activities := Json.arr ([("temple".toList), ("tea".toList), ("hike".toList)].map Json.str)
      , accommodation := Json.str ("inn".toList)
      , transportation := Json.str ("train".toList)
      , budget_estimate := Json.str ("mid".toList)
      , notes := Json.str ("ok".toList) } :=
  extract_roundtrip ("x".toList) ("y".toList) ("X".toList) ("D".toList) ("Kyoto".toList)
    ("2025-03-15".toList) ("2025-03-20".toList) ("inn".toList) ("train".toList)
    ("mid".toList) ("ok".toList) [("temple".toList), ("tea".toList), ("hike".toList)]
    (by decide) (by decide)
